import Mathlib

/-!
Verification development for the `hive` ECS runtime.

The Python sources are shallowly embedded:
* Python `dict` values become association lists with unique keys
  (`dlookup` / `dinsert` mirror `d[k]` / `d[k] = v`).
* `Store` (src/store.py) keeps `_next_id`, `_free_ids` and the
  component-type-keyed map of entity-keyed component maps.  Component
  types are identified by `Nat` tags; component values are a type
  parameter `V` because the store treats them opaquely.
* Systems, command handlers and event handlers are duck-typed callables
  in Python; they are embedded as Lean functions over an abstract world
  state `W`, returning the new state together with the list of commands
  they dispatch (dispatching is their only access to the dispatcher).
-/

/-- Lookup in an association list, mirroring Python `d.get(k)`. -/
def dlookup {K : Type} [DecidableEq K] {α : Type _} : List (K × α) → K → Option α
  | [], _ => none
  | (k', v) :: rest, k => if k' = k then some v else dlookup rest k

/-- Insertion into an association list, mirroring Python `d[k] = v`:
an existing key is overwritten in place, a new key is appended
(Python dicts preserve insertion order). -/
def dinsert {K : Type} [DecidableEq K] {α : Type _} : List (K × α) → K → α → List (K × α)
  | [], k, v => [(k, v)]
  | (k', v') :: rest, k, v =>
    if k' = k then (k, v) :: rest else (k', v') :: dinsert rest k v

namespace Store

/-- `Store.MAX_FREE_IDS` from src/store.py. -/
def MAX_FREE_IDS : Nat := 10000

end Store

/-- `Store` from src/store.py: `_next_id`, `_free_ids`, `_components`.
Component types are `Nat` tags, component values are the opaque `V`. -/
structure Store (V : Type) where
  next_id : Nat
  free_ids : List Nat
  components : List (Nat × List (Nat × V))
deriving Repr

namespace Store

/-- `Store.__init__`. -/
def init (V : Type) : Store V := { next_id := 0, free_ids := [], components := [] }

/-- `Store.create_entity`: pop a recycled ID from the end of the free
list if available, else issue `_next_id` and increment it.  (The Python
overflow guard `_next_id < 0` can never fire for Python's unbounded
non-negative ints, so the embedded counter is a `Nat`.) -/
def create_entity {V : Type} (s : Store V) : Nat × Store V :=
  match s.free_ids.getLast? with
  | some eid => (eid, { s with free_ids := s.free_ids.dropLast })
  | none => (s.next_id, { s with next_id := s.next_id + 1 })

/-- `Store.destroy_entity`: drop the entity from every component map,
then recycle the ID unless the free list is full or already holds it. -/
def destroy_entity {V : Type} (s : Store V) (entity : Nat) : Store V :=
  { s with
    components := s.components.map fun tm => (tm.1, tm.2.filter fun p => p.1 ≠ entity)
    free_ids :=
      if s.free_ids.length < MAX_FREE_IDS then
        if entity ∈ s.free_ids then s.free_ids else s.free_ids ++ [entity]
      else s.free_ids }

/-- `Store.add_component` (the component's Python type is the tag `t`). -/
def add_component {V : Type} (s : Store V) (entity : Nat) (t : Nat) (v : V) : Store V :=
  match dlookup s.components t with
  | none => { s with components := s.components ++ [(t, [(entity, v)])] }
  | some m => { s with components := dinsert s.components t (dinsert m entity v) }

/-- `Store.get_components`: the component map for a type, `{}` if absent. -/
def get_components {V : Type} (s : Store V) (t : Nat) : List (Nat × V) :=
  (dlookup s.components t).getD []

/-- `Store.has_component`. -/
def has_component {V : Type} (s : Store V) (entity : Nat) (t : Nat) : Bool :=
  (s.get_components t).any fun p => p.1 = entity

/-- `Store.remove_component`. -/
def remove_component {V : Type} (s : Store V) (entity : Nat) (t : Nat) :
    Bool × Store V :=
  match dlookup s.components t with
  | none => (false, s)
  | some m =>
    if m.any (fun p => p.1 = entity) then
      (true, { s with components := dinsert s.components t (m.filter fun p => p.1 ≠ entity) })
    else (false, s)

/-- The key set of one component type's map (`set(comp_map.keys())`). -/
def keysOf {V : Type} (s : Store V) (t : Nat) : List Nat :=
  (s.get_components t).map fun p => p.1

/-- `Store.query_entities`: IDs holding all requested component types,
sorted ascending.  Zero types or any empty per-type map short-circuits
to the empty sequence; otherwise the key sets are intersected and the
result emitted in ascending order (`sorted(set.intersection(*sets))`). -/
def query_entities {V : Type} (s : Store V) (ts : List Nat) : List Nat :=
  match ts with
  | [] => []
  | t :: rest =>
    if (t :: rest).any (fun ty => s.keysOf ty = []) then []
    else
      List.insertionSort (· ≤ ·)
        ((rest.map s.keysOf).foldl (fun acc k => acc.filter fun e => e ∈ k) (s.keysOf t))

end Store

/-! ## Entity-lifecycle traces (for the create/destroy claims)

A trace interprets a list of `create_entity`/`destroy_entity` calls on a
store, tracking as ghost state the set of live IDs (issued and not yet
destroyed), the set of IDs ever issued, and two sticky flags: whether a
`create_entity` ever returned a currently-live ID, and whether a
`destroy_entity` ever targeted an ID that was never issued. -/

/-- One call in a `create_entity`/`destroy_entity` sequence. -/
inductive Op where
  | create : Op
  | destroy : Nat → Op
deriving Repr, DecidableEq

/-- Trace state: the store plus ghost bookkeeping. -/
structure TS (V : Type) where
  store : Store V
  live : List Nat
  created : List Nat
  freshViol : Bool
  destroyedUncreated : Bool
deriving Repr

/-- Initial trace state over a fresh store. -/
def TS.init (V : Type) : TS V :=
  { store := Store.init V, live := [], created := [], freshViol := false,
    destroyedUncreated := false }

/-- Interpret one call. -/
def TS.stepOp {V : Type} (ts : TS V) : Op → TS V
  | .create =>
    let (eid, s') := ts.store.create_entity
    { store := s', live := eid :: ts.live, created := eid :: ts.created,
      freshViol := ts.freshViol || decide (eid ∈ ts.live),
      destroyedUncreated := ts.destroyedUncreated }
  | .destroy e =>
    { store := ts.store.destroy_entity e, live := ts.live.filter (fun x => x ≠ e),
      created := ts.created,
      freshViol := ts.freshViol,
      destroyedUncreated := ts.destroyedUncreated || decide (e ∉ ts.created) }

/-- Interpret a whole call sequence. -/
def TS.run {V : Type} (ts : TS V) (ops : List Op) : TS V :=
  ops.foldl TS.stepOp ts

/-! ## Commands, systems, World scheduling (src/core.py)

A registered "system" is any Python object; `World.step` looks up its
`update` attribute with `getattr(system, "update", None)` and skips the
entry when it is absent.  A system's `update(world, dispatcher)` is
embedded as a pure function from the world state to the new state plus
the commands it dispatches, in dispatch order. -/

/-- A command: a runtime-type tag plus an opaque payload. -/
structure Cmd where
  ctype : Nat
  payload : Nat
deriving Repr, DecidableEq

/-- A registered object: an identity (its registration index) and an
optional `update` attribute. -/
structure SysObj (W : Type) where
  sid : Nat
  upd : Option (W → W × List Cmd)

/-- `World.register`: append `(priority, system)` and stably re-sort by
priority (`list.sort(key=lambda t: t[0])` — Python's sort is stable,
modelled by insertion sort). -/
def World.register {W : Type} (systems : List (Int × SysObj W)) (system : SysObj W)
    (priority : Int) : List (Int × SysObj W) :=
  List.insertionSort (fun a b => a.1 ≤ b.1) (systems ++ [(priority, system)])

/-- A sequence of `World.register` calls starting from the empty list. -/
def World.registerAll {W : Type} (regs : List (Int × SysObj W)) : List (Int × SysObj W) :=
  regs.foldl (fun acc r => World.register acc r.2 r.1) []

/-- The body of `World.step`'s loop: `getattr(system, "update", None)`
is `none` for an object without an `update` attribute (skip), otherwise
`update` runs, its dispatched commands are appended to the queue, and
the invocation is recorded in the trace. -/
def stepSys {W : Type} (acc : W × List Cmd × List Nat) (ps : Int × SysObj W) :
    W × List Cmd × List Nat :=
  match ps.2.upd with
  | none => acc
  | some f =>
    let r := f acc.1
    (r.1, acc.2.1 ++ r.2, acc.2.2 ++ [ps.2.sid])

/-- `World.step`: run each registered system in list order, skipping
entries without an `update` attribute.  Returns the world state, the
dispatcher queue (dispatched commands appended in FIFO order), and the
trace of invoked system identities. -/
def World.step {W : Type} (systems : List (Int × SysObj W)) (w : W) (q : List Cmd) :
    W × List Cmd × List Nat :=
  systems.foldl stepSys (w, q, [])

/-! ## Command router (src/command/router.py) -/

/-- A command handler `(cmd, world) -> None`: embedded as returning the
new world state plus the commands it dispatches to the runtime's
dispatcher while it runs. -/
def Handler (W : Type) : Type := Cmd → W → W × List Cmd

/-- `CommandRouter.register`: raise `ValueError` if a handler is already
bound for the type, else bind it (a new dict key appends). -/
def CommandRouter.register {W : Type} (handlers : List (Nat × Handler W)) (cmd_type : Nat)
    (handler : Handler W) : Except String (List (Nat × Handler W)) :=
  if (dlookup handlers cmd_type).isSome then
    .error ("Handler already registered for " ++ toString cmd_type)
  else .ok (dinsert handlers cmd_type handler)

/-- `CommandRouter.unregister`. -/
def CommandRouter.unregister {W : Type} (handlers : List (Nat × Handler W)) (cmd_type : Nat) :
    Bool × List (Nat × Handler W) :=
  if (dlookup handlers cmd_type).isSome then
    (true, handlers.filter fun p => p.1 ≠ cmd_type)
  else (false, handlers)

/-- `CommandRouter.route`: invoke the bound handler if any; returns
whether the command was routed, the world state, and the commands the
handler dispatched. -/
def CommandRouter.route {W : Type} (handlers : List (Nat × Handler W)) (cmd : Cmd) (w : W) :
    Bool × W × List Cmd :=
  match dlookup handlers cmd.ctype with
  | some h =>
    let r := h cmd w
    (true, r.1, r.2)
  | none => (false, w, [])

/-- `stats[cmd_type] = stats.get(cmd_type, 0) + 1`. -/
def bumpStat (stats : List (Nat × Nat)) (t : Nat) : List (Nat × Nat) :=
  dinsert stats t ((dlookup stats t).getD 0 + 1)

/-- The body of `CommandRouter.handle_all`'s loop: route one command,
accumulate its handler's dispatches on the queue, and count it in the
stats when it was routed. -/
def routeStep {W : Type} (handlers : List (Nat × Handler W))
    (acc : W × List Cmd × List (Nat × Nat)) (cmd : Cmd) : W × List Cmd × List (Nat × Nat) :=
  let r := CommandRouter.route handlers cmd acc.1
  (r.2.1, acc.2.1 ++ r.2.2, if r.1 then bumpStat acc.2.2 cmd.ctype else acc.2.2)

/-- `CommandRouter.handle_all`: route each command of the batch in
order; newly dispatched commands accumulate on the dispatcher queue
`q`.  Returns the world state, the queue, and the per-type stats of
routed commands. -/
def CommandRouter.handle_all {W : Type} (handlers : List (Nat × Handler W)) (commands : List Cmd)
    (w : W) (q : List Cmd) : W × List Cmd × List (Nat × Nat) :=
  commands.foldl (routeStep handlers) (w, q, [])

/-! ## Runtime (src/runtime.py) -/

/-- Runtime state: world, dispatcher queue, router table, step counter. -/
structure RT (W : Type) where
  world : W
  queue : List Cmd
  handlers : List (Nat × Handler W)
  steps : Nat

/-- `Runtime.step`: phase 1 runs every system (systems dispatch into the
queue); phase 2 pops the whole queue (`pop_all`) and routes that batch;
then the step counter is incremented.  Commands dispatched by handlers
during phase 2 remain on the queue. -/
def Runtime.step {W : Type} (systems : List (Int × SysObj W)) (rt : RT W) : RT W :=
  let p := World.step systems rt.world rt.queue
  let commands := p.2.1
  let r := CommandRouter.handle_all rt.handlers commands p.1 []
  { world := r.1, queue := r.2.1, handlers := rt.handlers, steps := rt.steps + 1 }

/-! ## Event bus (src/hive/events.py) -/

/-- An event: a runtime-type tag plus an opaque payload. -/
structure Event where
  etype : Nat
  payload : Nat
deriving Repr, DecidableEq

/-- An event handler `(event, world, dispatcher)`: returns the new
world state and whether it raised an exception (a raising handler still
keeps whatever mutation it performed before raising). -/
def EHandler (W : Type) : Type := Event → W → W × Bool

/-- The event bus: `_subs` maps an event type to its subscriber list
(token, handler); `_next_id` numbers tokens. -/
structure EventBus (W : Type) where
  subs : List (Nat × List ((Nat × Nat) × EHandler W))
  next_id : Nat

/-- `EventBus.__init__`. -/
def EventBus.init (W : Type) : EventBus W := { subs := [], next_id := 0 }

/-- `EventBus.on`: append the subscriber to its event type's list and
return the subscription token. -/
def EventBus.on {W : Type} (bus : EventBus W) (event_type : Nat) (handler : EHandler W) :
    EventBus W × (Nat × Nat) :=
  let token := (event_type, bus.next_id)
  let cur := (dlookup bus.subs event_type).getD []
  ({ subs := dinsert bus.subs event_type (cur ++ [(token, handler)]),
     next_id := bus.next_id + 1 }, token)

/-- `EventBus.emit`: invoke every current subscriber for the event's
type in registration order; a raising handler is logged and the loop
continues (`try/except` around each call).  Returns the world state and
the trace of invoked subscription tokens. -/
def EventBus.emit {W : Type} (bus : EventBus W) (event : Event) (w : W) :
    W × List (Nat × Nat) :=
  ((dlookup bus.subs event.etype).getD []).foldl
    (fun acc th =>
      let r := th.2 event acc.1
      (r.1, acc.2 ++ [th.1]))
    (w, [])

/-! ## Snapshot serialization (src/hive/serialize.py)

For the round-trip claim the component universe is the `Position`
dataclass; its type tag is `0` and its `__name__` is `"Position"`.
`_serialize_component` on a dataclass emits `{"__type__": name,
"data": asdict}`; `_deserialize_component` reconstructs the dataclass
from its field dict, raising `TypeError` (here `none`) when the class
or a field cannot be found.  Entity IDs are stringified on the way out
and parsed with `int(sid)` on the way in. -/

/-- The `Position` dataclass of the round-trip scenario. -/
structure Position where
  x : Int
  y : Int
deriving Repr, DecidableEq

/-- The type tag standing for the Python class `Position`. -/
def Position.typeId : Nat := 0

/-- `t.__name__` for the component-type tags in scope. -/
def typeName (t : Nat) : String :=
  if t = 0 then "Position" else "UnknownType" ++ toString t

/-- A serialized component: `{"__type__": tname, "data": {...}}`. -/
structure SerComp where
  tname : String
  data : List (String × Int)
deriving Repr, DecidableEq

/-- A world as the serializer sees it: store plus resource registry
(resources keyed by their type tag). -/
structure SWorld where
  store : Store Position
  resources : List (Nat × Position)
deriving Repr

/-- The snapshot payload: `next_id`, `components`, `resources`. -/
structure Snap where
  next_id : Nat
  components : List (String × List (String × SerComp))
  resources : List (String × SerComp)
deriving Repr, DecidableEq

/-- Digit value of a character, for the embedding of Python `int`. -/
def charDigit (c : Char) : Option Nat :=
  if c.isDigit then some (c.toNat - 48) else none

/-- The embedding of Python `int(sid)` on a decimal string: `none`
models the `ValueError` raised on a malformed string. -/
def parseNat (s : String) : Option Nat :=
  match s.toList with
  | [] => none
  | cs => cs.foldlM (fun acc c => (charDigit c).map fun d => acc * 10 + d) 0

/-- `_serialize_component` on a `Position` (a dataclass): tag plus
`dataclasses.asdict`. -/
def serializeComponent (c : Position) : SerComp :=
  { tname := "Position", data := [("x", c.x), ("y", c.y)] }

/-- `_deserialize_component`: reconstruct the dataclass from its field
dict; `none` models the `TypeError` raised when the class cannot be
located or the fields do not match. -/
def deserializeComponent (s : SerComp) : Option Position :=
  if s.tname = "Position" then
    match dlookup s.data "x", dlookup s.data "y" with
    | some a, some b => some { x := a, y := b }
    | _, _ => none
  else none

/-- `snapshot(world)`: `next_id`, every component map keyed by type
name with stringified entity IDs, and the (always serializable here)
resources. -/
def snapshot (w : SWorld) : Snap :=
  { next_id := w.store.next_id
    components := w.store.components.map fun tm =>
      (typeName tm.1, tm.2.map fun ec => (toString ec.1, serializeComponent ec.2))
    resources := w.resources.map fun kv => (typeName kv.1, serializeComponent kv.2) }

/-- `load_into_world(snapshot_obj, world)`: overwrite `next_id`, insert
every deserialized component under its entity ID (failures raise, hence
`none`), then re-register each deserializable resource (failures are
skipped via `try/except TypeError`). -/
def load_into_world (snap : Snap) (w : SWorld) : Option SWorld := do
  let st0 : Store Position := { w.store with next_id := snap.next_id }
  let st ← snap.components.foldlM
    (fun (st : Store Position) tm =>
      tm.2.foldlM
        (fun (st : Store Position) sc => do
          let eid ← parseNat sc.1
          let comp ← deserializeComponent sc.2
          let m := (dlookup st.components Position.typeId).getD []
          pure { st with components := dinsert st.components Position.typeId (dinsert m eid comp) })
        st)
    st0
  let res := snap.resources.foldl
    (fun (acc : List (Nat × Position)) sc =>
      match deserializeComponent sc.2 with
      | some r => dinsert acc Position.typeId r
      | none => acc)
    w.resources
  pure { store := st, resources := res }

/-! ## Shared helper lemmas -/

theorem dlookup_dinsert {K : Type} [DecidableEq K] {α : Type _} (m : List (K × α)) (k : K)
    (v : α) : dlookup (dinsert m k v) k = some v := by
  induction m with
  | nil => simp [dinsert, dlookup]
  | cons p rest ih =>
    by_cases h : p.1 = k
    · simp [dinsert, dlookup, h]
    · simp [dinsert, dlookup, h, ih]

/-! ## C3: destroy_entity on absent entities -/

/-- C3 (counterexample): destroying the never-created ID `7` on a fresh
store is not a no-op: it seeds the free list with `7`, and the next
`create_entity` observably returns `7` instead of `0`. -/
theorem destroy_never_created_changes_store :
    Store.destroy_entity (Store.init Unit) 7 ≠ Store.init Unit
    ∧ (Store.destroy_entity (Store.init Unit) 7).free_ids = [7]
    ∧ (Store.create_entity (Store.destroy_entity (Store.init Unit) 7)).1 = 7
    ∧ (Store.create_entity (Store.init Unit)).1 = 0 := by
  refine ⟨fun h => ?_, rfl, rfl, rfl⟩
  exact absurd (congrArg Store.free_ids h) (by decide)

/-- C3 (amended): `destroy_entity` never raises (it is a total
function), and destroying an ID that holds no components and already
sits on the free list — the state of an already-destroyed entity —
leaves the store unchanged.  Destroying a never-created ID is also not
an error, but it may enqueue that ID for recycling. -/
theorem destroy_absent_entity_noop {V : Type} (s : Store V) (e : Nat)
    (hc : ∀ tm ∈ s.components, ∀ p ∈ tm.2, p.1 ≠ e)
    (hf : e ∈ s.free_ids) :
    s.destroy_entity e = s := by
  unfold Store.destroy_entity
  have hcomp : (s.components.map fun tm => (tm.1, tm.2.filter fun p => p.1 ≠ e))
      = s.components := by
    have hall : ∀ tm ∈ s.components, (tm.1, tm.2.filter fun p => p.1 ≠ e) = tm := by
      intro tm htm
      have h2 : tm.2.filter (fun p => p.1 ≠ e) = tm.2 :=
        List.filter_eq_self.mpr (fun p hp => by simpa using hc tm htm p hp)
      exact Prod.ext rfl h2
    calc (s.components.map fun tm => (tm.1, tm.2.filter fun p => p.1 ≠ e))
        = s.components.map id := List.map_congr_left hall
      _ = s.components := List.map_id s.components
  have hfree : (if s.free_ids.length < Store.MAX_FREE_IDS then
      if e ∈ s.free_ids then s.free_ids else s.free_ids ++ [e]
      else s.free_ids) = s.free_ids := by
    split
    · simp [hf]
    · rfl
  rw [hcomp, hfree]

/-- Witness for C3's amended theorem: a store whose free list holds the
already-destroyed ID `0` and which has no components. -/
theorem destroy_absent_entity_noop_witness :
    (∀ tm ∈ (Store.mk 1 [0] [] : Store Unit).components, ∀ p ∈ tm.2, p.1 ≠ 0)
    ∧ 0 ∈ (Store.mk 1 [0] [] : Store Unit).free_ids
    ∧ Store.destroy_entity (Store.mk 1 [0] [] : Store Unit) 0 = Store.mk 1 [0] [] :=
  ⟨by simp, by simp,
   destroy_absent_entity_noop (Store.mk 1 [0] []) 0 (by simp) (by simp)⟩

/-! ## C5: free-list cap and monotonic issuance -/

theorem destroy_preserves_free_len_le {V : Type} (s : Store V) (e : Nat)
    (h : s.free_ids.length ≤ Store.MAX_FREE_IDS) :
    (s.destroy_entity e).free_ids.length ≤ Store.MAX_FREE_IDS := by
  unfold Store.destroy_entity
  dsimp only
  split
  · split
    · exact h
    · rename_i hlt _
      simp only [List.length_append, List.length_singleton]
      omega
  · exact h

theorem create_preserves_free_len_le {V : Type} (s : Store V)
    (h : s.free_ids.length ≤ Store.MAX_FREE_IDS) :
    s.create_entity.2.free_ids.length ≤ Store.MAX_FREE_IDS := by
  unfold Store.create_entity
  split
  · refine le_trans ?_ h
    simp only [List.length_dropLast]
    exact Nat.sub_le _ _
  · exact h

theorem run_preserves_free_len_le {V : Type} (ops : List Op) :
    ∀ ts : TS V, ts.store.free_ids.length ≤ Store.MAX_FREE_IDS →
      (ts.run ops).store.free_ids.length ≤ Store.MAX_FREE_IDS := by
  induction ops with
  | nil => intro ts h; exact h
  | cons op rest ih =>
    intro ts h
    show ((ts.stepOp op).run rest).store.free_ids.length ≤ Store.MAX_FREE_IDS
    apply ih
    cases op with
    | create =>
      simpa [TS.stepOp] using create_preserves_free_len_le ts.store h
    | destroy e =>
      simpa [TS.stepOp] using destroy_preserves_free_len_le ts.store e h

/-- C5: over every sequence of `create_entity`/`destroy_entity` calls
from a fresh store the free list never exceeds `MAX_FREE_IDS` entries;
once the list is full a destroyed ID is abandoned (the free list is
unchanged); and whenever the free list is empty, creation issues the
monotonically increasing `_next_id` and bumps it. -/
theorem free_list_bounded {V : Type} :
    (∀ ops : List Op, ((TS.init V).run ops).store.free_ids.length ≤ Store.MAX_FREE_IDS)
    ∧ (∀ (s : Store V) (e : Nat), Store.MAX_FREE_IDS ≤ s.free_ids.length →
        (s.destroy_entity e).free_ids = s.free_ids)
    ∧ (∀ s : Store V, s.free_ids = [] →
        s.create_entity.1 = s.next_id ∧ s.create_entity.2.next_id = s.next_id + 1) := by
  refine ⟨fun ops => run_preserves_free_len_le ops _ (by simp [TS.init, Store.init]), ?_, ?_⟩
  · intro s e h
    unfold Store.destroy_entity
    simp [Nat.not_lt.mpr h]
  · intro s h
    unfold Store.create_entity
    simp [h]

/-- Witness for C5 at concrete inputs. -/
theorem free_list_bounded_witness :
    ((TS.init Unit).run [Op.destroy 3]).store.free_ids.length ≤ Store.MAX_FREE_IDS
    ∧ (Store.destroy_entity (Store.mk 0 (List.replicate 10000 5) [] : Store Unit) 7).free_ids
        = List.replicate 10000 5
    ∧ (Store.init Unit).create_entity.1 = (Store.init Unit).next_id :=
  ⟨free_list_bounded.1 [Op.destroy 3],
   free_list_bounded.2.1 (Store.mk 0 (List.replicate 10000 5) []) 7
     (by rw [List.length_replicate]; exact le_refl _),
   (free_list_bounded.2.2 (Store.init Unit) rfl).1⟩

/-! ## C4: two-type queries are sorted intersections -/

/-- C4: `query_entities(A, B)` equals the ascending-sorted intersection
of the ID sets of `query_entities(A)` and `query_entities(B)` (the
intersection expressed as a membership filter, then sorted), and a
query with zero component types yields the empty sequence. -/
theorem query_entities_pair_is_sorted_intersection {V : Type} :
    (∀ (s : Store V) (A B : Nat),
      s.query_entities [A, B] =
        List.insertionSort (· ≤ ·)
          ((s.query_entities [A]).filter fun e => e ∈ s.query_entities [B]))
    ∧ (∀ s : Store V, s.query_entities [] = []) := by
  refine ⟨fun s A B => ?_, fun s => rfl⟩
  by_cases hA : s.keysOf A = []
  · simp [Store.query_entities, hA]
  · by_cases hB : s.keysOf B = []
    · simp [Store.query_entities, hA, hB]
    · simp only [Store.query_entities, List.any_cons, List.any_nil, hA, hB, decide_False,
        Bool.or_false, Bool.false_or, if_neg, List.map_cons, List.map_nil, List.foldl_cons,
        List.foldl_nil]
      have hmemB : ∀ e, (decide (e ∈ List.insertionSort (· ≤ ·) (s.keysOf B)))
          = (decide (e ∈ s.keysOf B)) := by
        intro e
        simp [List.mem_insertionSort]
      have hfc : ((List.insertionSort (· ≤ ·) (s.keysOf A)).filter
            fun e => decide (e ∈ List.insertionSort (· ≤ ·) (s.keysOf B)))
          = ((List.insertionSort (· ≤ ·) (s.keysOf A)).filter
            fun e => decide (e ∈ s.keysOf B)) := by
        apply List.filter_congr
        intro a _
        exact hmemB a
      have hperm : List.Perm
          ((List.insertionSort (· ≤ ·) (s.keysOf A)).filter fun e => decide (e ∈ s.keysOf B))
          ((s.keysOf A).filter fun e => decide (e ∈ s.keysOf B)) :=
        (List.perm_insertionSort _ _).filter _
      have h1 : List.Sorted (· ≤ ·) (List.insertionSort (· ≤ ·)
          ((s.keysOf A).filter fun e => decide (e ∈ s.keysOf B))) :=
        List.sorted_insertionSort _ _
      have h2 : List.Sorted (· ≤ ·) (List.insertionSort (· ≤ ·)
          ((List.insertionSort (· ≤ ·) (s.keysOf A)).filter
            fun e => decide (e ∈ List.insertionSort (· ≤ ·) (s.keysOf B)))) :=
        List.sorted_insertionSort _ _
      apply List.eq_of_perm_of_sorted _ h1 h2
      refine (List.perm_insertionSort _ _).trans (List.Perm.trans hperm.symm ?_)
      rw [← hfc]
      exact (List.perm_insertionSort _ _).symm

/-! ## C7: double registration fails fast, first handler kept -/

/-- C7: with no handler yet bound for `t`, the first registration
succeeds; a second registration for the same command type fails with
`ValueError` at registration time; after the failed attempt the first
handler is still the one bound and is the one `route` invokes. -/
theorem router_register_conflict {W : Type} (handlers : List (Nat × Handler W)) (t : Nat)
    (h1 h2 : Handler W) (hfree : dlookup handlers t = none) (c : Cmd) (hc : c.ctype = t)
    (w : W) :
    CommandRouter.register handlers t h1 = .ok (dinsert handlers t h1)
    ∧ CommandRouter.register (dinsert handlers t h1) t h2 =
        .error ("Handler already registered for " ++ toString t)
    ∧ dlookup (dinsert handlers t h1) t = some h1
    ∧ CommandRouter.route (dinsert handlers t h1) c w = (true, h1 c w) := by
  have hl : dlookup (dinsert handlers t h1) t = some h1 := dlookup_dinsert handlers t h1
  refine ⟨?_, ?_, hl, ?_⟩
  · unfold CommandRouter.register
    rw [hfree]
    rfl
  · unfold CommandRouter.register
    rw [hl]
    rfl
  · unfold CommandRouter.route
    rw [hc, hl]

/-- Witness for C7 at a concrete router and command. -/
theorem router_register_conflict_witness :
    dlookup ([] : List (Nat × Handler Nat)) 3 = none
    ∧ (Cmd.mk 3 0).ctype = 3
    ∧ CommandRouter.route (dinsert ([] : List (Nat × Handler Nat)) 3 (fun _ w => (w + 1, [])))
        (Cmd.mk 3 0) 5
        = (true, (fun (_ : Cmd) (w : Nat) => (w + 1, ([] : List Cmd))) (Cmd.mk 3 0) 5) :=
  ⟨rfl, rfl,
   (router_register_conflict [] 3 (fun _ w => (w + 1, [])) (fun _ w => (w + 2, []))
     rfl (Cmd.mk 3 0) rfl 5).2.2.2⟩

/-! ## C8: EventBus.emit isolates subscriber failures -/

theorem emit_foldl_spec {W : Type} (event : Event) (hs : List ((Nat × Nat) × EHandler W)) :
    ∀ (w : W) (acc : List (Nat × Nat)),
      hs.foldl (fun a th => ((th.2 event a.1).1, a.2 ++ [th.1])) (w, acc)
        = (hs.foldl (fun a th => (th.2 event a).1) w, acc ++ hs.map fun th => th.1) := by
  induction hs with
  | nil => intro w acc; simp
  | cons th rest ih =>
    intro w acc
    simp only [List.foldl_cons, List.map_cons]
    rw [ih]
    simp

/-- C8: `emit` invokes every subscriber registered for the event's type,
in registration order, whether or not earlier handlers raised (the
per-handler `try/except` keeps the loop going and nothing propagates to
the caller — `emit` is total); the final state threads through every
handler; and `on` appends a later subscriber at the end of the same
type's list, so it is reached after any earlier failing one. -/
theorem emit_isolates_subscriber_failures {W : Type} (bus : EventBus W) (event : Event)
    (w : W) (h' : EHandler W) :
    (bus.emit event w).2 = ((dlookup bus.subs event.etype).getD []).map (fun th => th.1)
    ∧ (bus.emit event w).1
        = ((dlookup bus.subs event.etype).getD []).foldl (fun a th => (th.2 event a).1) w
    ∧ dlookup ((bus.on event.etype h').1.subs) event.etype
        = some (((dlookup bus.subs event.etype).getD [])
            ++ [((event.etype, bus.next_id), h')]) := by
  unfold EventBus.emit EventBus.on
  rw [emit_foldl_spec]
  exact ⟨by simp, rfl, dlookup_dinsert _ _ _⟩

/-! ## C10: objects without an update attribute are skipped -/

theorem foldl_stepSys_filter {W : Type} (systems : List (Int × SysObj W)) :
    ∀ acc : W × List Cmd × List Nat,
      systems.foldl stepSys acc
        = (systems.filter fun ps => ps.2.upd.isSome).foldl stepSys acc := by
  induction systems with
  | nil => intro acc; rfl
  | cons ps rest ih =>
    intro acc
    cases h : ps.2.upd with
    | none =>
      have hstep : stepSys acc ps = acc := by unfold stepSys; rw [h]
      simp only [List.foldl_cons, List.filter_cons, h, Option.isSome_none, hstep]
      exact ih acc
    | some f =>
      simp only [List.foldl_cons, List.filter_cons, h, Option.isSome_some]
      exact ih (stepSys acc ps)

theorem foldl_stepSys_trace {W : Type} (systems : List (Int × SysObj W))
    (hall : ∀ ps ∈ systems, ps.2.upd.isSome) :
    ∀ (w : W) (q : List Cmd) (tr : List Nat),
      (systems.foldl stepSys (w, q, tr)).2.2 = tr ++ systems.map fun ps => ps.2.sid := by
  induction systems with
  | nil => intro w q tr; simp
  | cons ps rest ih =>
    intro w q tr
    obtain ⟨f, hf⟩ := Option.isSome_iff_exists.mp (hall ps (List.mem_cons_self ps rest))
    have hstep : stepSys (w, q, tr) ps = ((f w).1, q ++ (f w).2, tr ++ [ps.2.sid]) := by
      unfold stepSys
      rw [hf]
    simp only [List.foldl_cons, hstep, List.map_cons]
    rw [ih (fun p hp => hall p (List.mem_cons_of_mem ps hp))]
    simp

/-- C10: a registered object without an `update` attribute is silently
skipped by `World.step` — the step's outcome equals the step over just
the objects that do have `update`, and the invocation trace is exactly
those objects, in order; `step` (a total function) completes without
raising. -/
theorem step_skips_objects_without_update {W : Type} (systems : List (Int × SysObj W))
    (w : W) (q : List Cmd) :
    World.step systems w q = World.step (systems.filter fun ps => ps.2.upd.isSome) w q
    ∧ (World.step systems w q).2.2
        = (systems.filter fun ps => ps.2.upd.isSome).map fun ps => ps.2.sid := by
  constructor
  · unfold World.step
    exact foldl_stepSys_filter systems _
  · unfold World.step
    rw [foldl_stepSys_filter systems]
    rw [foldl_stepSys_trace _ (fun ps hps => (List.mem_filter.mp hps).2) w q []]
    simp

/-! ## C2: command visibility and routing phases of Runtime.step -/

theorem foldl_stepSys_decompose {W : Type} (systems : List (Int × SysObj W)) :
    ∀ (w : W) (q : List Cmd) (tr : List Nat),
      systems.foldl stepSys (w, q, tr)
        = ((systems.foldl stepSys (w, [], [])).1,
           q ++ (systems.foldl stepSys (w, [], [])).2.1,
           tr ++ (systems.foldl stepSys (w, [], [])).2.2) := by
  induction systems with
  | nil => intro w q tr; simp
  | cons ps rest ih =>
    intro w q tr
    cases h : ps.2.upd with
    | none =>
      have h0 : ∀ a : W × List Cmd × List Nat, stepSys a ps = a := by
        intro a; unfold stepSys; rw [h]
      simp only [List.foldl_cons, h0]
      exact ih w q tr
    | some f =>
      have h1 : stepSys (w, q, tr) ps = ((f w).1, q ++ (f w).2, tr ++ [ps.2.sid]) := by
        unfold stepSys; rw [h]
      have h2 : stepSys (w, [], []) ps = ((f w).1, (f w).2, [ps.2.sid]) := by
        unfold stepSys; rw [h]; simp
      simp only [List.foldl_cons, h1, h2]
      rw [ih ((f w).1) (q ++ (f w).2) (tr ++ [ps.2.sid]), ih ((f w).1) ((f w).2) [ps.2.sid]]
      simp [List.append_assoc]

/-- The total of the routing stats. -/
def statsTotal (stats : List (Nat × Nat)) : Nat := (stats.map fun p => p.2).sum

theorem statsTotal_bump (stats : List (Nat × Nat)) (t : Nat) :
    statsTotal (bumpStat stats t) = statsTotal stats + 1 := by
  induction stats with
  | nil => rfl
  | cons p rest ih =>
    by_cases h : p.1 = t
    · simp [bumpStat, dlookup, dinsert, h, statsTotal]
      omega
    · simp [bumpStat, dlookup, dinsert, h, statsTotal] at ih ⊢
      omega

theorem foldl_routeStep_counts {W : Type} (handlers : List (Nat × Handler W))
    (commands : List Cmd) :
    ∀ (w : W) (q : List Cmd) (stats : List (Nat × Nat)),
      statsTotal (commands.foldl (routeStep handlers) (w, q, stats)).2.2
        = statsTotal stats
          + (commands.filter fun c => (dlookup handlers c.ctype).isSome).length := by
  induction commands with
  | nil => intro w q stats; simp
  | cons c rest ih =>
    intro w q stats
    cases h : dlookup handlers c.ctype with
    | none =>
      have hr : routeStep handlers (w, q, stats) c = (w, q ++ [], stats) := by
        unfold routeStep CommandRouter.route; rw [h]; rfl
      simp only [List.foldl_cons, List.filter_cons, h, Option.isSome_none, hr,
        Bool.false_eq_true, if_false]
      exact ih w (q ++ []) stats
    | some hh =>
      have hr : routeStep handlers (w, q, stats) c
          = ((hh c w).1, q ++ (hh c w).2, bumpStat stats c.ctype) := by
        unfold routeStep CommandRouter.route; rw [h]; rfl
      simp only [List.foldl_cons, List.filter_cons, h, Option.isSome_some, if_true, hr]
      rw [ih, statsTotal_bump]
      simp only [List.length_cons]
      omega

theorem foldl_routeStep_decompose {W : Type} (handlers : List (Nat × Handler W))
    (commands : List Cmd) :
    ∀ (w : W) (q : List Cmd) (stats : List (Nat × Nat)),
      commands.foldl (routeStep handlers) (w, q, stats)
        = ((commands.foldl (routeStep handlers) (w, [], stats)).1,
           q ++ (commands.foldl (routeStep handlers) (w, [], stats)).2.1,
           (commands.foldl (routeStep handlers) (w, [], stats)).2.2) := by
  induction commands with
  | nil => intro w q stats; simp
  | cons c rest ih =>
    intro w q stats
    cases h : dlookup handlers c.ctype with
    | none =>
      have hr : ∀ q' : List Cmd, routeStep handlers (w, q', stats) c = (w, q' ++ [], stats) := by
        intro q'; unfold routeStep CommandRouter.route; rw [h]; rfl
      simp only [List.foldl_cons, hr, List.append_nil]
      exact ih w q stats
    | some hh =>
      have hr : ∀ q' : List Cmd, routeStep handlers (w, q', stats) c
          = ((hh c w).1, q' ++ (hh c w).2, bumpStat stats c.ctype) := by
        intro q'; unfold routeStep CommandRouter.route; rw [h]; rfl
      simp only [List.foldl_cons, hr, List.nil_append]
      rw [ih ((hh c w).1) (q ++ (hh c w).2) (bumpStat stats c.ctype),
        ih ((hh c w).1) ((hh c w).2) (bumpStat stats c.ctype)]
      simp [List.append_assoc]

/-- C2 (amended): `Runtime.step` is two strictly separated phases.
Systems run first and only dispatch (`World.step` never consults the
router, so no command is routed — hence none is observable through a
handler — while systems run); their commands join the queue in FIFO
order behind any pre-existing entries.  The batch popped by `pop_all`
— exactly the phase-1 queue — is then routed: each command of the
batch with a registered handler is routed exactly once within the step.
Commands dispatched by handlers during routing are NOT routed in the
same step: they accumulate behind the queue for a later step. -/
theorem runtime_step_phase_separation {W : Type} (systems : List (Int × SysObj W))
    (handlers : List (Nat × Handler W)) (w : W) (n : Nat) :
    (Runtime.step systems { world := w, queue := [], handlers := handlers, steps := n }
      = { world := (CommandRouter.handle_all handlers (World.step systems w []).2.1
                      (World.step systems w []).1 []).1,
          queue := (CommandRouter.handle_all handlers (World.step systems w []).2.1
                      (World.step systems w []).1 []).2.1,
          handlers := handlers, steps := n + 1 })
    ∧ (∀ q : List Cmd, (World.step systems w q).2.1 = q ++ (World.step systems w []).2.1)
    ∧ (∀ (commands : List Cmd) (w' : W),
        statsTotal (CommandRouter.handle_all handlers commands w' []).2.2
          = (commands.filter fun c => (dlookup handlers c.ctype).isSome).length)
    ∧ (∀ (commands q' : List Cmd) (w' : W),
        (CommandRouter.handle_all handlers commands w' q').2.1
          = q' ++ (CommandRouter.handle_all handlers commands w' []).2.1) := by
  refine ⟨rfl, ?_, ?_, ?_⟩
  · intro q
    unfold World.step
    rw [foldl_stepSys_decompose systems w q []]
  · intro commands w'
    unfold CommandRouter.handle_all
    rw [foldl_routeStep_counts]
    simp [statsTotal]
  · intro commands q' w'
    unfold CommandRouter.handle_all
    rw [foldl_routeStep_decompose handlers commands w' q' []]

/-- The system of the C2 counterexample: dispatches one command of
type `1` and adds 10 to the world counter. -/
def sysCE : List (Int × SysObj Nat) :=
  [(0, { sid := 0, upd := some fun w => (w + 10, [{ ctype := 1, payload := 0 }]) })]

/-- The handlers of the C2 counterexample: the type-1 handler adds 1
and dispatches a command of type `2`; the type-2 handler adds 100. -/
def handlersCE : List (Nat × Handler Nat) :=
  [(1, fun _ w => (w + 1, [{ ctype := 2, payload := 0 }])),
   (2, fun _ w => (w + 100, []))]

/-- The initial runtime of the C2 counterexample. -/
def rtCE : RT Nat := { world := 0, queue := [], handlers := handlersCE, steps := 0 }

/-- C2 (counterexample): the command of type `2`, dispatched by the
type-1 handler while the routing phase ran, is still sitting on the
queue when `Runtime.step` returns, and its handler never ran (the world
counter is `11`, not `111` — yet routing it would run the registered
type-2 handler, as the third conjunct shows).  So a command dispatched
during the step is not routed before the step returns. -/
theorem handler_dispatched_command_unrouted_at_step_end :
    (Runtime.step sysCE rtCE).queue = [{ ctype := 2, payload := 0 }]
    ∧ (Runtime.step sysCE rtCE).world = 11
    ∧ CommandRouter.route handlersCE { ctype := 2, payload := 0 } 11 = (true, 111, []) :=
  ⟨rfl, rfl, rfl⟩

/-! ## C9: snapshot round-trip for Position(1, 2) -/

/-- The original world of the round-trip scenario: a fresh store, one
created entity, `Position(1, 2)` attached to it, no resources. -/
def roundTripWorld : SWorld :=
  let p := (Store.init Position).create_entity
  { store := Store.add_component p.2 p.1 Position.typeId { x := 1, y := 2 }
    resources := [] }

/-- The fresh world the snapshot is loaded into. -/
def freshWorld : SWorld := { store := Store.init Position, resources := [] }

/-- C9: snapshotting `roundTripWorld` and loading into a fresh world
succeeds and reproduces the same association — entity `0` holds
`Position(1, 2)` — and the fresh store's `next_id` is no smaller than
the original's. -/
theorem snapshot_roundtrip_position :
    (load_into_world (snapshot roundTripWorld) freshWorld).map
        (fun w2 => w2.store.get_components Position.typeId)
      = some [(0, { x := 1, y := 2 })]
    ∧ (load_into_world (snapshot roundTripWorld) freshWorld).map
        (fun w2 => w2.store.next_id) = some 1
    ∧ roundTripWorld.store.next_id ≤ 1 := by
  exact ⟨rfl, rfl, Nat.le_refl 1⟩

/-! ## C1: created IDs never collide with live IDs -/

/-- The invariant tying the store to the ghost trace state: live,
free and issued IDs are all below `_next_id`, the free list has no
duplicates, no live ID sits on the free list, and no two live entities
share an ID. -/
def TSInv {V : Type} (ts : TS V) : Prop :=
  (∀ e ∈ ts.live, e < ts.store.next_id)
  ∧ (∀ e ∈ ts.store.free_ids, e < ts.store.next_id)
  ∧ (∀ e ∈ ts.created, e < ts.store.next_id)
  ∧ ts.store.free_ids.Nodup
  ∧ (∀ e ∈ ts.live, e ∉ ts.store.free_ids)
  ∧ ts.live.Nodup

theorem stepOp_create_eq {V : Type} (ts : TS V) :
    ts.stepOp .create =
      { store := ts.store.create_entity.2,
        live := ts.store.create_entity.1 :: ts.live,
        created := ts.store.create_entity.1 :: ts.created,
        freshViol := ts.freshViol || decide (ts.store.create_entity.1 ∈ ts.live),
        destroyedUncreated := ts.destroyedUncreated } := rfl

theorem run_destroyedUncreated_sticky {V : Type} (ops : List Op) :
    ∀ ts : TS V, ts.destroyedUncreated = true → (ts.run ops).destroyedUncreated = true := by
  induction ops with
  | nil => intro ts h; exact h
  | cons op rest ih =>
    intro ts h
    show ((ts.stepOp op).run rest).destroyedUncreated = true
    apply ih
    cases op with
    | create => rw [stepOp_create_eq]; exact h
    | destroy e => simp [TS.stepOp, h]

theorem create_preserves_inv {V : Type} (ts : TS V) (h : TSInv ts) :
    TSInv (ts.stepOp .create) ∧ (ts.stepOp .create).freshViol = ts.freshViol := by
  obtain ⟨hlive, hfree, hcr, hnd, hdisj, hlnd⟩ := h
  rw [stepOp_create_eq]
  cases hl : ts.store.free_ids.getLast? with
  | some eid =>
    have heq : ts.store.free_ids.dropLast ++ [eid] = ts.store.free_ids :=
      List.dropLast_append_getLast? eid (Option.mem_def.mpr hl)
    have heid_mem : eid ∈ ts.store.free_ids := by
      rw [← heq]
      exact List.mem_append_right _ (List.mem_singleton_self eid)
    have hdl_sub : ∀ x ∈ ts.store.free_ids.dropLast, x ∈ ts.store.free_ids := by
      intro x hx
      rw [← heq]
      exact List.mem_append_left _ hx
    have hnd' : ts.store.free_ids.dropLast.Nodup ∧ eid ∉ ts.store.free_ids.dropLast := by
      have h2 := hnd
      rw [← heq] at h2
      obtain ⟨ha, _, hc⟩ := List.nodup_append.mp h2
      exact ⟨ha, fun hmem => hc hmem (List.mem_singleton_self eid)⟩
    have hce : ts.store.create_entity
        = (eid, { ts.store with free_ids := ts.store.free_ids.dropLast }) := by
      unfold Store.create_entity
      rw [hl]
    have heid_not_live : eid ∉ ts.live := fun hmem => hdisj eid hmem heid_mem
    rw [hce]
    refine ⟨⟨?_, ?_, ?_, ?_, ?_, ?_⟩, ?_⟩
    · intro e he
      rcases List.mem_cons.mp he with rfl | he'
      · exact hfree e heid_mem
      · exact hlive e he'
    · intro e he
      exact hfree e (hdl_sub e he)
    · intro e he
      rcases List.mem_cons.mp he with rfl | he'
      · exact hfree e heid_mem
      · exact hcr e he'
    · exact hnd'.1
    · intro e he
      rcases List.mem_cons.mp he with rfl | he'
      · exact hnd'.2
      · exact fun hmem => hdisj e he' (hdl_sub e hmem)
    · exact List.Nodup.cons heid_not_live hlnd
    · simp [heid_not_live]
  | none =>
    have hce : ts.store.create_entity
        = (ts.store.next_id, { ts.store with next_id := ts.store.next_id + 1 }) := by
      unfold Store.create_entity
      rw [hl]
    have hnl : ts.store.next_id ∉ ts.live := fun hmem => absurd (hlive _ hmem) (lt_irrefl _)
    rw [hce]
    refine ⟨⟨?_, ?_, ?_, hnd, ?_, ?_⟩, ?_⟩
    · intro e he
      rcases List.mem_cons.mp he with rfl | he'
      · exact Nat.lt_succ_self _
      · exact Nat.lt_succ_of_lt (hlive e he')
    · intro e he
      exact Nat.lt_succ_of_lt (hfree e he)
    · intro e he
      rcases List.mem_cons.mp he with rfl | he'
      · exact Nat.lt_succ_self _
      · exact Nat.lt_succ_of_lt (hcr e he')
    · intro e he
      rcases List.mem_cons.mp he with rfl | he'
      · intro hmem
        exact absurd (hfree _ hmem) (lt_irrefl _)
      · exact hdisj e he'
    · exact List.Nodup.cons hnl hlnd
    · simp [hnl]

theorem destroy_preserves_inv {V : Type} (ts : TS V) (e : Nat) (h : TSInv ts)
    (he : e ∈ ts.created) :
    TSInv (ts.stepOp (.destroy e)) ∧ (ts.stepOp (.destroy e)).freshViol = ts.freshViol
      ∧ (ts.stepOp (.destroy e)).destroyedUncreated = ts.destroyedUncreated := by
  obtain ⟨hlive, hfree, hcr, hnd, hdisj, hlnd⟩ := h
  have helt : e < ts.store.next_id := hcr e he
  have hmf : ∀ x, x ∈ ts.live.filter (fun y => y ≠ e) → x ∈ ts.live ∧ x ≠ e := by
    intro x hx
    obtain ⟨h1, h2⟩ := List.mem_filter.mp hx
    exact ⟨h1, of_decide_eq_true h2⟩
  refine ⟨⟨?_, ?_, ?_, ?_, ?_, ?_⟩, rfl, ?_⟩
  · intro x hx
    exact hlive x (hmf x hx).1
  · intro x hx
    show x < ts.store.next_id
    simp only [TS.stepOp, Store.destroy_entity] at hx
    split at hx
    · split at hx
      · exact hfree x hx
      · rcases List.mem_append.mp hx with h1 | h1
        · exact hfree x h1
        · rw [List.mem_singleton.mp h1]
          exact helt
    · exact hfree x hx
  · intro x hx
    exact hcr x hx
  · show ((ts.store.destroy_entity e).free_ids).Nodup
    unfold Store.destroy_entity
    dsimp only
    split
    · split
      · exact hnd
      · rename_i hnotmem
        refine List.nodup_append.mpr ⟨hnd, List.nodup_singleton e, ?_⟩
        intro a ha ha'
        rw [List.mem_singleton.mp ha'] at ha
        exact hnotmem ha
    · exact hnd
  · intro x hx
    obtain ⟨hxl, hxe⟩ := hmf x hx
    show x ∉ (ts.store.destroy_entity e).free_ids
    unfold Store.destroy_entity
    dsimp only
    split
    · split
      · exact hdisj x hxl
      · intro hmem
        rcases List.mem_append.mp hmem with h1 | h1
        · exact hdisj x hxl h1
        · exact hxe (List.mem_singleton.mp h1)
    · exact hdisj x hxl
  · exact List.Nodup.filter _ hlnd
  · simp [TS.stepOp, he]

theorem run_fresh_ids {V : Type} (ops : List Op) :
    ∀ ts : TS V, TSInv ts → (ts.run ops).destroyedUncreated = false →
      (ts.run ops).freshViol = ts.freshViol ∧ TSInv (ts.run ops) := by
  induction ops with
  | nil => intro ts hi _; exact ⟨rfl, hi⟩
  | cons op rest ih =>
    intro ts hi hd
    have hd' : ((ts.stepOp op).run rest).destroyedUncreated = false := hd
    cases op with
    | create =>
      obtain ⟨hinv', hfv⟩ := create_preserves_inv ts hi
      obtain ⟨h1, h2⟩ := ih (ts.stepOp .create) hinv' hd'
      exact ⟨by rw [show ts.run (Op.create :: rest) = (ts.stepOp .create).run rest from rfl,
        h1, hfv], h2⟩
    | destroy e =>
      by_cases he : e ∈ ts.created
      · obtain ⟨hinv', hfv, _⟩ := destroy_preserves_inv ts e hi he
        obtain ⟨h1, h2⟩ := ih (ts.stepOp (.destroy e)) hinv' hd'
        exact ⟨by rw [show ts.run (Op.destroy e :: rest) = (ts.stepOp (.destroy e)).run rest
          from rfl, h1, hfv], h2⟩
      · exfalso
        have hset : (ts.stepOp (.destroy e)).destroyedUncreated = true := by
          simp [TS.stepOp, he]
        have := run_destroyedUncreated_sticky rest (ts.stepOp (.destroy e)) hset
        rw [this] at hd'
        exact Bool.noConfusion hd'

/-- C1 (amended): over every `create_entity`/`destroy_entity` sequence
from a fresh store in which each `destroy_entity` call targets an ID
previously returned by `create_entity` (the trace flag
`destroyedUncreated` stays false), `create_entity` never returns a
still-live ID, and the live IDs stay pairwise distinct. -/
theorem create_never_returns_live_id {V : Type} (ops : List Op)
    (hvalid : ((TS.init V).run ops).destroyedUncreated = false) :
    ((TS.init V).run ops).freshViol = false
      ∧ ((TS.init V).run ops).live.Nodup := by
  have hinv : TSInv (TS.init V) := by
    refine ⟨?_, ?_, ?_, ?_, ?_, ?_⟩ <;> simp [TS.init, Store.init]
  obtain ⟨h1, h2⟩ := run_fresh_ids ops (TS.init V) hinv hvalid
  exact ⟨by rw [h1]; rfl, h2.2.2.2.2.2⟩

/-- Witness for C1's amended theorem: create, destroy the created ID,
create again — a valid trace with no freshness violation. -/
theorem create_never_returns_live_id_witness :
    ((TS.init Unit).run [Op.create, Op.destroy 0, Op.create]).destroyedUncreated = false
    ∧ (((TS.init Unit).run [Op.create, Op.destroy 0, Op.create]).freshViol = false
      ∧ ((TS.init Unit).run [Op.create, Op.destroy 0, Op.create]).live.Nodup) :=
  ⟨by decide, create_never_returns_live_id [Op.create, Op.destroy 0, Op.create] (by decide)⟩

/-- C1 (counterexample): destroying the never-created ID `7` on a
fresh store, then creating nine entities, makes `create_entity` return
`7` twice — the second time while the first entity `7` is still live.
The trace records a freshness violation and the live list holds `7`
twice, so the claim fails for sequences that destroy never-created
IDs. -/
theorem create_returns_live_id_after_uncreated_destroy :
    ((TS.init Unit).run (Op.destroy 7 :: List.replicate 9 Op.create)).freshViol = true
    ∧ ¬ ((TS.init Unit).run (Op.destroy 7 :: List.replicate 9 Op.create)).live.Nodup := by
  constructor <;> decide

/-! ## C6: priority scheduling is a stable sort -/

/-- The strict order that pins down the stable sort: ascending
priority, with the registration index (`sid`) breaking ties. -/
def prioLex {W : Type} (a b : Int × SysObj W) : Prop :=
  a.1 < b.1 ∨ (a.1 = b.1 ∧ a.2.sid < b.2.sid)

/-- Inserting a later registration after all equal-priority entries. -/
def insertTied {W : Type} (x : Int × SysObj W) :
    List (Int × SysObj W) → List (Int × SysObj W)
  | [] => [x]
  | a :: t => if x.1 < a.1 then x :: a :: t else a :: insertTied x t

theorem insertTied_cons {W : Type} (x a : Int × SysObj W) (t : List (Int × SysObj W)) :
    insertTied x (a :: t) = if x.1 < a.1 then x :: a :: t else a :: insertTied x t := rfl

theorem prioLex_le {W : Type} {a b : Int × SysObj W} (h : prioLex a b) : a.1 ≤ b.1 := by
  rcases h with h | ⟨h, _⟩
  · exact le_of_lt h
  · exact le_of_eq h

theorem insertTied_of_lt {W : Type} (x : Int × SysObj W) (t : List (Int × SysObj W))
    (h : ∀ b ∈ t, x.1 < b.1) : insertTied x t = x :: t := by
  cases t with
  | nil => rfl
  | cons a t' =>
    unfold insertTied
    rw [if_pos (h a (List.mem_cons_self a t'))]

theorem orderedInsert_head_le {W : Type} (a : Int × SysObj W) (t : List (Int × SysObj W))
    (h : ∀ b ∈ t, a.1 ≤ b.1) :
    List.orderedInsert (fun p q => p.1 ≤ q.1) a t = a :: t := by
  cases t with
  | nil => rfl
  | cons b t' => exact List.orderedInsert_of_le _ t' (h b (List.mem_cons_self b t'))

theorem insertionSort_append_singleton {W : Type} (x : Int × SysObj W) :
    ∀ l : List (Int × SysObj W), l.Pairwise (fun a b => a.1 ≤ b.1) →
      List.insertionSort (fun a b => a.1 ≤ b.1) (l ++ [x]) = insertTied x l := by
  intro l
  induction l with
  | nil => intro _; rfl
  | cons a t ih =>
    intro hp
    obtain ⟨ha, ht⟩ := List.pairwise_cons.mp hp
    show List.orderedInsert _ a (List.insertionSort _ (t ++ [x])) = insertTied x (a :: t)
    rw [ih ht]
    by_cases hx : x.1 < a.1
    · have h0 : ∀ b ∈ t, x.1 < b.1 := fun b hb => lt_of_lt_of_le hx (ha b hb)
      rw [insertTied_of_lt x t h0,
        show insertTied x (a :: t) = x :: a :: t by unfold insertTied; rw [if_pos hx]]
      cases t with
      | nil =>
        show List.orderedInsert _ a [x] = x :: [a]
        unfold List.orderedInsert
        rw [if_neg (Int.not_le.mpr hx)]
        rfl
      | cons b t' =>
        show List.orderedInsert _ a (x :: b :: t') = x :: a :: b :: t'
        unfold List.orderedInsert
        rw [if_neg (Int.not_le.mpr hx)]
        rw [List.orderedInsert_of_le _ t' (ha b (List.mem_cons_self b t'))]
    · have hax : a.1 ≤ x.1 := Int.not_lt.mp hx
      rw [show insertTied x (a :: t) = a :: insertTied x t
        by rw [insertTied_cons, if_neg hx]]
      cases t with
      | nil => exact List.orderedInsert_of_le _ [] hax
      | cons b t' =>
        by_cases hxb : x.1 < b.1
        · rw [show insertTied x (b :: t') = x :: b :: t' by unfold insertTied; rw [if_pos hxb]]
          exact List.orderedInsert_of_le _ (b :: t') hax
        · rw [show insertTied x (b :: t') = b :: insertTied x t'
            by rw [insertTied_cons, if_neg hxb]]
          exact List.orderedInsert_of_le _ _ (ha b (List.mem_cons_self b t'))

theorem mem_insertTied {W : Type} (x c : Int × SysObj W) :
    ∀ t, c ∈ insertTied x t → c = x ∨ c ∈ t := by
  intro t
  induction t with
  | nil => intro h; left; exact List.mem_singleton.mp h
  | cons a t' ih =>
    intro h
    unfold insertTied at h
    split at h
    · rcases List.mem_cons.mp h with rfl | h'
      · left; rfl
      · right; exact h'
    · rcases List.mem_cons.mp h with rfl | h'
      · right; exact List.mem_cons_self _ _
      · rcases ih h' with h'' | h''
        · left; exact h''
        · right; exact List.mem_cons_of_mem a h''

theorem pairwise_insertTied {W : Type} (x : Int × SysObj W) :
    ∀ l : List (Int × SysObj W), l.Pairwise prioLex →
      (∀ b ∈ l, b.2.sid < x.2.sid) → (insertTied x l).Pairwise prioLex := by
  intro l
  induction l with
  | nil => intro _ _; exact List.pairwise_singleton _ _
  | cons a t ih =>
    intro hp hsid
    obtain ⟨ha, ht⟩ := List.pairwise_cons.mp hp
    by_cases hx : x.1 < a.1
    · rw [show insertTied x (a :: t) = x :: a :: t by unfold insertTied; rw [if_pos hx]]
      refine List.pairwise_cons.mpr ⟨?_, hp⟩
      intro c hc
      rcases List.mem_cons.mp hc with rfl | hc'
      · exact Or.inl hx
      · exact Or.inl (lt_of_lt_of_le hx (prioLex_le (ha c hc')))
    · rw [show insertTied x (a :: t) = a :: insertTied x t
        by rw [insertTied_cons, if_neg hx]]
      refine List.pairwise_cons.mpr
        ⟨?_, ih ht fun b hb => hsid b (List.mem_cons_of_mem a hb)⟩
      intro c hc
      rcases mem_insertTied x c t hc with rfl | hc'
      · rcases lt_or_eq_of_le (Int.not_lt.mp hx) with h1 | h1
        · exact Or.inl h1
        · exact Or.inr ⟨h1, hsid a (List.mem_cons_self a t)⟩
      · exact ha c hc'

theorem registerAll_stable_sorted {W : Type} (regs : List (Int × SysObj W)) :
    regs.Pairwise (fun a b => a.2.sid < b.2.sid) →
      List.Perm (World.registerAll regs) regs
        ∧ (World.registerAll regs).Pairwise prioLex := by
  induction regs using List.reverseRecOn with
  | nil => intro _; exact ⟨List.Perm.refl _, List.Pairwise.nil⟩
  | append_singleton l x ih =>
    intro hids
    rw [List.pairwise_append] at hids
    obtain ⟨h1, _, h3⟩ := hids
    obtain ⟨ihp, ihpw⟩ := ih h1
    have hkey : (World.registerAll l).Pairwise fun a b => a.1 ≤ b.1 :=
      ihpw.imp prioLex_le
    have hra : World.registerAll (l ++ [x])
        = insertTied x (World.registerAll l) := by
      unfold World.registerAll
      rw [List.foldl_append]
      exact insertionSort_append_singleton x _ hkey
    rw [hra]
    constructor
    · have p1 : List.Perm (insertTied x (World.registerAll l))
          ((World.registerAll l) ++ [x]) := by
        rw [← insertionSort_append_singleton x _ hkey]
        exact List.perm_insertionSort _ _
      exact p1.trans (ihp.append_right [x])
    · refine pairwise_insertTied x _ ihpw ?_
      intro b hb
      exact h3 b (ihp.mem_iff.mp hb) x (List.mem_singleton_self x)

/-- C6: (i) four systems registered with priorities [5, 1, 5, 0] are
invoked by `World.step` in the order priority-0, priority-1,
first-registered priority-5, second-registered priority-5; (ii) for
every registration sequence (registration indices strictly increasing),
the scheduled list is a permutation of the registrations ordered by
ascending priority with registration order as the tie-break (`prioLex`
pairwise along the list). -/
theorem step_priority_stable_order {W : Type} :
    (∀ (w : W) (s0 s1 s2 s3 : SysObj W),
      s0.upd.isSome → s1.upd.isSome → s2.upd.isSome → s3.upd.isSome →
      (World.step (World.registerAll [(5, s0), (1, s1), (5, s2), (0, s3)]) w []).2.2
        = [s3.sid, s1.sid, s0.sid, s2.sid])
    ∧ (∀ regs : List (Int × SysObj W),
        regs.Pairwise (fun a b => a.2.sid < b.2.sid) →
        List.Perm (World.registerAll regs) regs
          ∧ (World.registerAll regs).Pairwise prioLex) := by
  constructor
  · intro w s0 s1 s2 s3 h0 h1 h2 h3
    have hreg : World.registerAll [(5, s0), (1, s1), (5, s2), (0, s3)]
        = [(0, s3), (1, s1), (5, s0), (5, s2)] := by
      simp [World.registerAll, World.register, List.insertionSort, List.orderedInsert]
    have hall : ∀ ps ∈ ([(0, s3), (1, s1), (5, s0), (5, s2)] : List (Int × SysObj W)),
        ps.2.upd.isSome := by
      intro ps hps
      simp only [List.mem_cons, List.not_mem_nil, or_false] at hps
      rcases hps with rfl | rfl | rfl | rfl
      · exact h3
      · exact h1
      · exact h0
      · exact h2
    rw [hreg]
    unfold World.step
    rw [foldl_stepSys_trace _ hall w [] []]
    simp
  · exact fun regs h => registerAll_stable_sorted regs h

/-- A concrete always-updating system with identity `n`. -/
def sysW (n : Nat) : SysObj Nat := { sid := n, upd := some fun w => (w, []) }

/-- Witness for C6 at concrete systems and registrations. -/
theorem step_priority_stable_order_witness :
    ((World.step (World.registerAll
        [(5, sysW 0), (1, sysW 1), (5, sysW 2), (0, sysW 3)]) (0 : Nat) []).2.2
      = [3, 1, 0, 2])
    ∧ (List.Perm (World.registerAll [(5, sysW 0), (1, sysW 1)]) [(5, sysW 0), (1, sysW 1)]
        ∧ (World.registerAll [(5, sysW 0), (1, sysW 1)]).Pairwise prioLex) := by
  constructor
  · exact step_priority_stable_order.1 0 (sysW 0) (sysW 1) (sysW 2) (sysW 3)
      rfl rfl rfl rfl
  · refine step_priority_stable_order.2 [(5, sysW 0), (1, sysW 1)] ?_
    refine List.pairwise_cons.mpr ⟨?_, List.pairwise_singleton _ _⟩
    intro b hb
    rw [List.mem_singleton.mp hb]
    exact Nat.zero_lt_one
